import Mathlib

/-!
Shallow embedding of the inference pipeline of `use_model_example.ipynb`
(Audio_blind_source_separation). A spectrogram-like object is represented by
its list of time frames; a frame is abstracted to a single integer value
(channel and frequency extents are constant along the whole pipeline, so one
value per time frame keeps every time-axis operation faithful). The notebook
itself is glue code around the `separator.AudioSeparator` class, which is not
part of the repository snapshot; the collaborator operations it calls are
modelled from the specification, each marked `Modelled from the spec:`.
-/

/-- Training-time configuration fields consumed by the notebook
(`separator.data_set.config`). -/
structure Config where
  scaling_type : String
  shift : Int
  scaling : Int
  sampling_rate : Nat
  deriving Repr, DecidableEq

/-- Modelled from the spec: `stft_magnitude_to_features` (method of the
dataset class inside `separator.py`, not under the snapshot) is a
deterministic elementwise mapping from magnitude to the feature
representation (e.g. log compression); abstracted as a fixed elementwise map
on frames. It preserves the time length. -/
def stft_magnitude_to_features (magnitude : List Int) : List Int :=
  magnitude.map (fun x => x + 1)

/-- Modelled from the spec: `shift_and_scale_features` (dataset class method,
not under the snapshot) is an affine normalization using the supplied shift
and scaling values. -/
def shift_and_scale_features (features : List Int) (shift scaling : Int) : List Int :=
  features.map (fun x => (x + shift) * scaling)

/-- Modelled from Python string semantics: `str.lower()` on the ASCII strings
the configuration uses, mapping each character to lower case. -/
def py_lower (s : String) : String :=
  String.mk (s.data.map Char.toLower)

/-- Embedding of the scaling guard of cell-8:
`if separator.data_set.config['scaling_type'].lower() != "none":
features = separator.data_set.shift_and_scale_features(features,
config['shift'], config['scaling'])`. -/
def scale_features_step (cfg : Config) (features : List Int) : List Int :=
  if py_lower cfg.scaling_type ≠ "none" then
    shift_and_scale_features features cfg.shift cfg.scaling
  else features

/-- Embedding of the chunking comprehension of cell-10:
`[features[..., i*features_shape[-1]:(i+1)*features_shape[-1]]
  for i in range(features.shape[-1]//features_shape[-1])]`.
`C` is `features_shape[-1]`, the model chunk time extent. -/
def make_chunks (features : List Int) (C : Nat) : List (List Int) :=
  (List.range (features.length / C)).map (fun i => (features.drop (i * C)).take C)

/-- Modelled from library semantics used by cell-10: `torch.stack` raises a
`RuntimeError` when given an empty sequence of tensors, and otherwise stacks
the chunks into a new batch dimension. -/
def torch_stack (chunks : List (List Int)) : Option (List (List Int)) :=
  if chunks.isEmpty then none else some chunks

lemma make_chunks_length (features : List Int) (C : Nat) :
    (make_chunks features C).length = features.length / C := by
  simp [make_chunks]

lemma chunk_end_le (T C i : Nat) (hi : i < T / C) : (i + 1) * C ≤ T := by
  calc (i + 1) * C ≤ (T / C) * C := Nat.mul_le_mul_right C hi
    _ ≤ T := Nat.div_mul_le_self T C

lemma make_chunks_getD (features : List Int) (C i : Nat)
    (hi : i < features.length / C) :
    (make_chunks features C).getD i [] = (features.drop (i * C)).take C := by
  rw [make_chunks, List.getD_eq_getElem?_getD]
  rw [List.getElem?_map]
  rw [List.getElem?_range hi]
  rfl

lemma make_chunks_chunk_length (features : List Int) (C i : Nat)
    (hi : i < features.length / C) :
    ((make_chunks features C).getD i []).length = C := by
  rw [make_chunks_getD features C i hi]
  rw [List.length_take, List.length_drop]
  have h1 : (i + 1) * C ≤ features.length := chunk_end_le features.length C i hi
  rw [Nat.succ_mul] at h1
  omega

lemma join_range_chunks (l : List Int) (C : Nat) :
    ∀ n, n * C ≤ l.length →
      (((List.range n).map (fun i => (l.drop (i * C)).take C)).flatten = l.take (n * C)) := by
  intro n
  induction n with
  | zero => intro h; simp
  | succ n ih =>
    intro h
    have hn : n * C ≤ l.length := by
      have := Nat.le_of_lt_succ (Nat.lt_succ_of_le (Nat.le_refl n))
      calc n * C ≤ (n + 1) * C := Nat.mul_le_mul_right C (Nat.le_succ n)
        _ ≤ l.length := h
    rw [List.range_succ, List.map_append, List.flatten_append, ih hn]
    simp only [List.map_cons, List.map_nil, List.flatten_cons, List.flatten_nil, List.append_nil]
    rw [Nat.succ_mul, List.take_add]

lemma make_chunks_join (features : List Int) (C : Nat) :
    (make_chunks features C).flatten = features.take ((features.length / C) * C) := by
  rw [make_chunks]
  exact join_range_chunks features C (features.length / C) (Nat.div_mul_le_self _ _)

/-- C1: the chunker produces exactly `⌊T / C⌋` chunks, the `i`-th being the
slice of the features at time offsets `[i*C, (i+1)*C)` and of time length
exactly `C`; their concatenation is the `C * ⌊T / C⌋`-frame prefix of the
features (so the chunks are consecutive and non-overlapping, the trailing
`T mod C` frames are discarded, and no padding occurs), and a non-empty chunk
list is stacked unchanged into the batch. -/
theorem chunker_floor_div_spec (features : List Int) (T C : Nat)
    (hT : features.length = T) :
    (make_chunks features C).length = T / C ∧
    (∀ i, i < T / C →
      (make_chunks features C).getD i [] = (features.drop (i * C)).take C ∧
      ((make_chunks features C).getD i []).length = C) ∧
    (make_chunks features C).flatten = features.take (C * (T / C)) ∧
    (make_chunks features C ≠ [] →
      torch_stack (make_chunks features C) = some (make_chunks features C)) := by
  subst hT
  refine ⟨make_chunks_length features C, ?_, ?_, ?_⟩
  · intro i hi
    exact ⟨make_chunks_getD features C i hi, make_chunks_chunk_length features C i hi⟩
  · rw [make_chunks_join, Nat.mul_comm]
  · intro hne
    simp [torch_stack, hne]

/-- Witness for C1 at a concrete input: 7 frames, chunk extent 3. -/
theorem chunker_floor_div_spec_witness :
    (make_chunks [10, 11, 12, 13, 14, 15, 16] 3).length = 7 / 3 ∧
    (make_chunks [10, 11, 12, 13, 14, 15, 16] 3).getD 1 [] =
      (([10, 11, 12, 13, 14, 15, 16] : List Int).drop 3).take 3 ∧
    (make_chunks [10, 11, 12, 13, 14, 15, 16] 3).flatten =
      ([10, 11, 12, 13, 14, 15, 16] : List Int).take 6 := by
  have h := chunker_floor_div_spec [10, 11, 12, 13, 14, 15, 16] 7 3 (by decide)
  exact ⟨h.1, (h.2.1 1 (by decide)).1, h.2.2.1⟩

/-- Modelled from the spec: `separator.separate_spectrogram_in_lin_scale`
(method of `AudioSeparator`, not under the snapshot) combines (multiplies)
each per-class mask with the supplied raw magnitude chunk, recovering a
linear-scale magnitude estimate per class (cell-17 call site). The mask of a
chunk is per-class, hence a list (over classes) of time-frame lists. -/
def separate_spectrogram_in_lin_scale (mask : List (List Int))
    (magnitude_chunk : List Int) : List (List Int) :=
  mask.map (fun class_mask => List.zipWith (fun m x => m * x) class_mask magnitude_chunk)

/-- Modelled from the spec: `separator.spectrogram_to_audio` (method of
`AudioSeparator`, not under the snapshot) combines the magnitude spectrogram
with the supplied phase and applies the inverse short-time transform;
abstracted as a fixed elementwise combination of magnitude and phase frames. -/
def spectrogram_to_audio (spectrogram phase : List Int) : List Int :=
  List.zipWith (fun m p => m * p) spectrogram phase

/-- An audio file on disk: its samples and the sample rate it is written at. -/
structure WavFile where
  samples : List Int
  sample_rate : Nat
  deriving Repr, DecidableEq

/-- Modelled from library semantics used by cell-25:
`librosa.output.write_wav(path, audio, sr)` persists the waveform at the given
sample rate, without resampling. -/
def write_wav (audio : List Int) (sr : Nat) : WavFile :=
  { samples := audio, sample_rate := sr }

/-- All intermediate values of one notebook run that the claims talk about. -/
structure SeparationResult where
  batch : List (List Int)
  masks : List (List (List Int))
  spectrograms : List (List (List Int))
  source_spectrogram : List Int
  phase_arg : List Int
  out_file : WavFile
  deriving Repr, DecidableEq

/-- Embedding of the notebook pipeline, cells 8, 10, 11, 17, 19, 21, 23, 25.
`C` is the model chunk time extent `features_shape[-1]`; `model` is the loaded
`separator.model` (a parameter, since the checkpointed network is opaque),
mapping a batch of chunks to per-chunk, per-class masks; `magnitude` and
`phase` are the outputs of `separated_stft` on the loaded audio. Returns
`none` when `torch.stack` fails on an empty chunk list. -/
def run_notebook (cfg : Config) (C class_idx : Nat)
    (model : List (List Int) → List (List (List Int)))
    (magnitude phase : List Int) : Option SeparationResult :=
  let features0 := stft_magnitude_to_features magnitude
  let features := scale_features_step cfg features0
  match torch_stack (make_chunks features C) with
  | none => none
  | some batch =>
    let masks := model batch
    let spectrograms := (List.range batch.length).map (fun i =>
      separate_spectrogram_in_lin_scale (masks.getD i [])
        ((magnitude.drop (i * C)).take C))
    let class_spectrograms := spectrograms.map (fun s => s.getD class_idx [])
    let source_spectrogram := class_spectrograms.flatten
    let phase_arg := phase.take source_spectrogram.length
    let separated_audio := spectrogram_to_audio source_spectrogram phase_arg
    some { batch := batch, masks := masks, spectrograms := spectrograms,
           source_spectrogram := source_spectrogram, phase_arg := phase_arg,
           out_file := write_wav separated_audio cfg.sampling_rate }

/-- C5: when `scaling_type` is the literal `"none"`, the normalization step of
cell-8 is the identity, and the feature tensor fed to the chunker is the
unnormalized output of `stft_magnitude_to_features`. -/
theorem scaling_none_is_identity (cfg : Config) (features : List Int)
    (h : cfg.scaling_type = "none") :
    scale_features_step cfg features = features ∧
    ∀ C class_idx model magnitude phase,
      run_notebook cfg C class_idx model magnitude phase =
        (match torch_stack (make_chunks (stft_magnitude_to_features magnitude) C) with
         | none => none
         | some batch =>
           let masks := model batch
           let spectrograms := (List.range batch.length).map (fun i =>
             separate_spectrogram_in_lin_scale (masks.getD i [])
               ((magnitude.drop (i * C)).take C))
           let class_spectrograms := spectrograms.map (fun s => s.getD class_idx [])
           let source_spectrogram := class_spectrograms.flatten
           let phase_arg := phase.take source_spectrogram.length
           let separated_audio := spectrogram_to_audio source_spectrogram phase_arg
           some { batch := batch, masks := masks, spectrograms := spectrograms,
                  source_spectrogram := source_spectrogram, phase_arg := phase_arg,
                  out_file := write_wav separated_audio cfg.sampling_rate }) := by
  have hnone : py_lower "none" = "none" := by decide
  have hid : scale_features_step cfg features = features := by
    simp [scale_features_step, h, hnone]
  refine ⟨hid, ?_⟩
  intro C class_idx model magnitude phase
  simp only [run_notebook]
  have hid2 : scale_features_step cfg (stft_magnitude_to_features magnitude) =
      stft_magnitude_to_features magnitude := by
    simp [scale_features_step, h, hnone]
  rw [hid2]

/-- Witness for C5 at a concrete configuration and input. -/
theorem scaling_none_is_identity_witness :
    scale_features_step { scaling_type := "none", shift := 5, scaling := 7,
                          sampling_rate := 16000 } [1, 2, 3] = [1, 2, 3] := by
  exact (scaling_none_is_identity _ [1, 2, 3] rfl).1

/-- C10: the decision to skip normalization is case-insensitive in
`scaling_type`: cell-8 skips the normalization exactly when
`scaling_type.lower()` equals `"none"`, and applies it with the configured
shift and scaling for every other value. -/
theorem scaling_guard_case_insensitive (cfg : Config) (features : List Int) :
    (py_lower cfg.scaling_type = "none" → scale_features_step cfg features = features) ∧
    (py_lower cfg.scaling_type ≠ "none" →
      scale_features_step cfg features =
        shift_and_scale_features features cfg.shift cfg.scaling) := by
  constructor
  · intro h
    simp [scale_features_step, h]
  · intro h
    simp [scale_features_step, h]

/-- Witness for C10: normalization is skipped for `"NONE"` and applied for
`"standardization"`. -/
theorem scaling_guard_case_insensitive_witness :
    scale_features_step { scaling_type := "NONE", shift := 1, scaling := 2,
                          sampling_rate := 8000 } [3] = [3] ∧
    scale_features_step { scaling_type := "standardization", shift := 1, scaling := 2,
                          sampling_rate := 8000 } [3] =
      shift_and_scale_features [3] 1 2 := by
  constructor
  · exact (scaling_guard_case_insensitive
      { scaling_type := "NONE", shift := 1, scaling := 2, sampling_rate := 8000 }
      [3]).1 (by decide)
  · exact (scaling_guard_case_insensitive
      { scaling_type := "standardization", shift := 1, scaling := 2, sampling_rate := 8000 }
      [3]).2 (by decide)

/-- C6 counterexample: with `scaling_type = "None"` (which differs from the
literal `"none"`, so the claim as stated requires normalization to be
applied), cell-8 skips the normalization entirely: the features pass through
unchanged rather than being shifted and scaled by the stored values. -/
theorem stored_scaling_values_cex :
    ({ scaling_type := "None", shift := 1, scaling := 2,
       sampling_rate := 8000 } : Config).scaling_type ≠ "none" ∧
    scale_features_step { scaling_type := "None", shift := 1, scaling := 2,
                          sampling_rate := 8000 } [1] = [1] ∧
    scale_features_step { scaling_type := "None", shift := 1, scaling := 2,
                          sampling_rate := 8000 } [1] ≠
      shift_and_scale_features [1] 1 2 := by decide

/-- C6 (amended): when the configuration's `scaling_type` does not lower-case
to `"none"`, normalization is applied using exactly the stored `shift` and
`scaling` configuration values — the result is a pure function of the
features and those two stored values, so no statistics are recomputed from
the inference-time input. -/
theorem stored_scaling_values_used (cfg : Config) (features : List Int)
    (h : py_lower cfg.scaling_type ≠ "none") :
    scale_features_step cfg features =
      shift_and_scale_features features cfg.shift cfg.scaling := by
  simp [scale_features_step, h]

/-- Witness for the amended C6 at a concrete configuration. -/
theorem stored_scaling_values_used_witness :
    scale_features_step { scaling_type := "standard", shift := 3, scaling := 5,
                          sampling_rate := 8000 } [2, 4] =
      shift_and_scale_features [2, 4] 3 5 :=
  stored_scaling_values_used
    { scaling_type := "standard", shift := 3, scaling := 5, sampling_rate := 8000 }
    [2, 4] (by decide)

lemma scale_features_step_length (cfg : Config) (features : List Int) :
    (scale_features_step cfg features).length = features.length := by
  unfold scale_features_step
  split
  · simp [shift_and_scale_features]
  · rfl

lemma pipeline_features_length (cfg : Config) (magnitude : List Int) :
    (scale_features_step cfg (stft_magnitude_to_features magnitude)).length =
      magnitude.length := by
  rw [scale_features_step_length]
  simp [stft_magnitude_to_features]

lemma getD_map_range {α : Type} (f : Nat → α) (n i : Nat) (d : α) (hi : i < n) :
    (((List.range n).map f).getD i d) = f i := by
  rw [List.getD_eq_getElem?_getD, List.getElem?_map, List.getElem?_range hi]
  rfl

lemma torch_stack_some (chunks batch : List (List Int))
    (h : torch_stack chunks = some batch) : batch = chunks := by
  unfold torch_stack at h
  split at h
  · exact absurd h (by simp)
  · exact (Option.some.injEq _ _ ▸ h).symm

lemma run_notebook_some (cfg : Config) (C class_idx : Nat)
    (model : List (List Int) → List (List (List Int)))
    (magnitude phase : List Int) (res : SeparationResult)
    (h : run_notebook cfg C class_idx model magnitude phase = some res) :
    res.batch = make_chunks (scale_features_step cfg (stft_magnitude_to_features magnitude)) C ∧
    res.masks = model res.batch ∧
    res.spectrograms = (List.range res.batch.length).map (fun i =>
      separate_spectrogram_in_lin_scale (res.masks.getD i [])
        ((magnitude.drop (i * C)).take C)) ∧
    res.source_spectrogram = (res.spectrograms.map (fun s => s.getD class_idx [])).flatten ∧
    res.phase_arg = phase.take res.source_spectrogram.length ∧
    res.out_file = write_wav (spectrogram_to_audio res.source_spectrogram res.phase_arg)
      cfg.sampling_rate := by
  unfold run_notebook at h
  simp only [] at h
  cases hst : torch_stack
      (make_chunks (scale_features_step cfg (stft_magnitude_to_features magnitude)) C) with
  | none => rw [hst] at h; exact absurd h (by simp)
  | some batch =>
    rw [hst] at h
    simp only [Option.some.injEq] at h
    have hb : batch =
        make_chunks (scale_features_step cfg (stft_magnitude_to_features magnitude)) C :=
      torch_stack_some _ _ hst
    subst h
    exact ⟨hb, rfl, rfl, rfl, rfl, rfl⟩

/-- C2: the resynthesizer operates on the raw magnitude: in every successful
run, the `i`-th per-chunk separated spectrogram is the per-class mask of chunk
`i` combined with the slice of the original, non-normalized `magnitude` at
time offsets `[i*C, (i+1)*C)` — the normalized feature tensor does not enter
the mask application. -/
theorem masks_applied_to_raw_magnitude (cfg : Config) (C class_idx : Nat)
    (model : List (List Int) → List (List (List Int)))
    (magnitude phase : List Int) (res : SeparationResult)
    (h : run_notebook cfg C class_idx model magnitude phase = some res) :
    ∀ i, i < res.batch.length →
      res.spectrograms.getD i [] =
        (res.masks.getD i []).map (fun class_mask =>
          List.zipWith (fun m x => m * x) class_mask ((magnitude.drop (i * C)).take C)) := by
  intro i hi
  obtain ⟨-, -, hspec, -, -, -⟩ :=
    run_notebook_some cfg C class_idx model magnitude phase res h
  rw [hspec, getD_map_range _ _ i _ hi]
  rfl

/-- A concrete stand-in for the loaded network, used to exercise the pipeline
on examples: a single class whose mask doubles each frame of its input chunk. -/
def example_model (batch : List (List Int)) : List (List (List Int)) :=
  batch.map (fun chunk => [chunk.map (fun x => 2 * x)])

/-- A concrete configuration used to exercise the pipeline on examples. -/
def example_cfg : Config :=
  { scaling_type := "none", shift := 0, scaling := 1, sampling_rate := 16000 }

/-- The result of the example run used by the witnesses. -/
def example_result : SeparationResult :=
  { batch := [[3], [4]], masks := [[[6]], [[8]]], spectrograms := [[[12]], [[24]]],
    source_spectrogram := [12, 24], phase_arg := [5, 7],
    out_file := { samples := [60, 168], sample_rate := 16000 } }

lemma example_run :
    run_notebook example_cfg 1 0 example_model [2, 3] [5, 7] = some example_result := by
  decide

/-- Witness for C2 at the example run, chunk index 0. -/
theorem masks_applied_to_raw_magnitude_witness :
    example_result.spectrograms.getD 0 [] =
      (example_result.masks.getD 0 []).map (fun class_mask =>
        List.zipWith (fun m x => m * x) class_mask
          ((([2, 3] : List Int).drop (0 * 1)).take 1)) :=
  masks_applied_to_raw_magnitude example_cfg 1 0 example_model [2, 3] [5, 7]
    example_result example_run 0 (by decide)

/-- C8: cell-25 writes the separated waveform at exactly the sample rate
recorded in the training configuration (`config['sampling_rate']`), and the
samples written are exactly the resynthesized waveform — no resampling. -/
theorem output_written_at_config_sample_rate (cfg : Config) (C class_idx : Nat)
    (model : List (List Int) → List (List (List Int)))
    (magnitude phase : List Int) (res : SeparationResult)
    (h : run_notebook cfg C class_idx model magnitude phase = some res) :
    res.out_file.sample_rate = cfg.sampling_rate ∧
    res.out_file.samples = spectrogram_to_audio res.source_spectrogram res.phase_arg := by
  obtain ⟨-, -, -, -, -, hout⟩ :=
    run_notebook_some cfg C class_idx model magnitude phase res h
  rw [hout]
  exact ⟨rfl, rfl⟩

/-- Witness for C8 at the example run. -/
theorem output_written_at_config_sample_rate_witness :
    example_result.out_file.sample_rate = example_cfg.sampling_rate ∧
    example_result.out_file.samples =
      spectrogram_to_audio example_result.source_spectrogram example_result.phase_arg :=
  output_written_at_config_sample_rate example_cfg 1 0 example_model [2, 3] [5, 7]
    example_result example_run

lemma run_notebook_short_input (cfg : Config) (C class_idx : Nat)
    (model : List (List Int) → List (List (List Int)))
    (magnitude phase : List Int) (hshort : magnitude.length < C) :
    run_notebook cfg C class_idx model magnitude phase = none := by
  unfold run_notebook
  simp only []
  have hdiv : (scale_features_step cfg (stft_magnitude_to_features magnitude)).length / C = 0 := by
    rw [pipeline_features_length]
    exact Nat.div_eq_of_lt hshort
  have hempty : make_chunks (scale_features_step cfg (stft_magnitude_to_features magnitude)) C = [] := by
    unfold make_chunks
    rw [hdiv]
    rfl
  rw [hempty]
  rfl

/-- C9: with feature time length `T` (equal to the magnitude time length)
strictly below the chunk extent `C`, the chunk comprehension of cell-10 is
empty and `torch.stack` fails, so the run produces no output; conversely any
run that produces an output satisfies `C ≤ T`. -/
theorem short_input_fails_to_stack (cfg : Config) (C class_idx : Nat)
    (model : List (List Int) → List (List (List Int)))
    (magnitude phase : List Int) :
    (magnitude.length < C →
      run_notebook cfg C class_idx model magnitude phase = none) ∧
    ((run_notebook cfg C class_idx model magnitude phase).isSome →
      C ≤ magnitude.length) := by
  constructor
  · exact run_notebook_short_input cfg C class_idx model magnitude phase
  · intro hsome
    by_contra hlt
    rw [run_notebook_short_input cfg C class_idx model magnitude phase
      (Nat.lt_of_not_le hlt)] at hsome
    exact absurd hsome (by simp)

/-- Witness for C9: a 1-frame input with chunk extent 2 yields no output, and
the successful example run has `C = 1 ≤ 2` frames. -/
theorem short_input_fails_to_stack_witness :
    run_notebook example_cfg 2 0 example_model [4] [4] = none ∧
    (1 : Nat) ≤ ([2, 3] : List Int).length :=
  ⟨(short_input_fails_to_stack example_cfg 2 0 example_model [4] [4]).1 (by decide),
   (short_input_fails_to_stack example_cfg 1 0 example_model [2, 3] [5, 7]).2
     (by rw [example_run]; rfl)⟩

lemma slice_length (l : List Int) (C i : Nat) (hi : i < l.length / C) :
    ((l.drop (i * C)).take C).length = C := by
  rw [List.length_take, List.length_drop]
  have h1 : (i + 1) * C ≤ l.length := chunk_end_le l.length C i hi
  rw [Nat.succ_mul] at h1
  omega

lemma getD_map_lt {α β : Type} (l : List α) (F : α → β) (j : Nat) (d : β)
    (hj : j < l.length) : (l.map F).getD j d = F l[j] := by
  rw [List.getD_eq_getElem?_getD, List.getElem?_map, List.getElem?_eq_getElem hj]
  rfl

lemma class_chunk_len_le (mask : List (List Int)) (chunk : List Int) (j : Nat) :
    ((separate_spectrogram_in_lin_scale mask chunk).getD j []).length ≤ chunk.length := by
  by_cases hj : j < mask.length
  · rw [separate_spectrogram_in_lin_scale, getD_map_lt mask _ j [] hj]
    rw [List.length_zipWith]
    exact Nat.min_le_right _ _
  · rw [List.getD_eq_default]
    · exact Nat.zero_le _
    · rw [separate_spectrogram_in_lin_scale, List.length_map]
      omega

lemma class_chunk_len_eq (mask : List (List Int)) (chunk : List Int) (j C : Nat)
    (hC : 0 < C) (hchunk : chunk.length = C) (hmask : (mask.getD j []).length = C) :
    ((separate_spectrogram_in_lin_scale mask chunk).getD j []).length = C := by
  by_cases hj : j < mask.length
  · rw [separate_spectrogram_in_lin_scale, getD_map_lt mask _ j [] hj]
    rw [List.length_zipWith]
    rw [List.getD_eq_getElem mask [] hj] at hmask
    rw [hmask, hchunk]
    exact Nat.min_self C
  · rw [List.getD_eq_default mask [] (by omega)] at hmask
    simp at hmask
    omega

lemma run_notebook_none_of_div_zero (cfg : Config) (C class_idx : Nat)
    (model : List (List Int) → List (List (List Int)))
    (magnitude phase : List Int) (hdiv : magnitude.length / C = 0) :
    run_notebook cfg C class_idx model magnitude phase = none := by
  unfold run_notebook
  simp only []
  have hempty :
      make_chunks (scale_features_step cfg (stft_magnitude_to_features magnitude)) C = [] := by
    unfold make_chunks
    rw [pipeline_features_length, hdiv]
    rfl
  rw [hempty]
  rfl

lemma run_batch_length (cfg : Config) (C class_idx : Nat)
    (model : List (List Int) → List (List (List Int)))
    (magnitude phase : List Int) (res : SeparationResult)
    (h : run_notebook cfg C class_idx model magnitude phase = some res) :
    res.batch.length = magnitude.length / C := by
  obtain ⟨hb, -, -, -, -, -⟩ := run_notebook_some cfg C class_idx model magnitude phase res h
  rw [hb, make_chunks_length, pipeline_features_length]

lemma run_div_pos (cfg : Config) (C class_idx : Nat)
    (model : List (List Int) → List (List (List Int)))
    (magnitude phase : List Int) (res : SeparationResult)
    (h : run_notebook cfg C class_idx model magnitude phase = some res) :
    0 < magnitude.length / C ∧ 0 < C := by
  have hdiv : magnitude.length / C ≠ 0 := by
    intro hz
    rw [run_notebook_none_of_div_zero cfg C class_idx model magnitude phase hz] at h
    exact absurd h (by simp)
  refine ⟨Nat.pos_of_ne_zero hdiv, ?_⟩
  rcases Nat.eq_zero_or_pos C with hC | hC
  · exact absurd (by rw [hC]; exact Nat.div_zero _) hdiv
  · exact hC

lemma source_spectrogram_as_sum (cfg : Config) (C class_idx : Nat)
    (model : List (List Int) → List (List (List Int)))
    (magnitude phase : List Int) (res : SeparationResult)
    (h : run_notebook cfg C class_idx model magnitude phase = some res) :
    res.source_spectrogram.length =
      ((List.range res.batch.length).map (fun i =>
        ((separate_spectrogram_in_lin_scale (res.masks.getD i [])
          ((magnitude.drop (i * C)).take C)).getD class_idx []).length)).sum := by
  obtain ⟨-, -, hspec, hsrc, -, -⟩ :=
    run_notebook_some cfg C class_idx model magnitude phase res h
  rw [hsrc, hspec, List.map_map, List.length_flatten, List.map_map]
  rfl

lemma source_spectrogram_len_le (cfg : Config) (C class_idx : Nat)
    (model : List (List Int) → List (List (List Int)))
    (magnitude phase : List Int) (res : SeparationResult)
    (h : run_notebook cfg C class_idx model magnitude phase = some res) :
    res.source_spectrogram.length ≤ magnitude.length := by
  rw [source_spectrogram_as_sum cfg C class_idx model magnitude phase res h]
  have hstep : ∀ x ∈ (List.range res.batch.length).map (fun i =>
      ((separate_spectrogram_in_lin_scale (res.masks.getD i [])
        ((magnitude.drop (i * C)).take C)).getD class_idx []).length), x ≤ C := by
    intro x hx
    obtain ⟨i, -, rfl⟩ := List.mem_map.mp hx
    exact le_trans (class_chunk_len_le _ _ _) (List.length_take_le _ _)
  have hsum := List.sum_le_card_nsmul _ C hstep
  rw [List.length_map, List.length_range] at hsum
  have hbatch := run_batch_length cfg C class_idx model magnitude phase res h
  calc _ ≤ res.batch.length • C := hsum
    _ = (magnitude.length / C) * C := by rw [hbatch, smul_eq_mul]
    _ ≤ magnitude.length := Nat.div_mul_le_self _ _

/-- C4: the phase handed to the inverse transform in cell-23 is the mixture's
original phase truncated along time to exactly the time length of the
separated spectrogram — a literal prefix of the original phase, so no phase
is estimated or recomputed. -/
theorem phase_truncated_to_spectrogram_length (cfg : Config) (C class_idx : Nat)
    (model : List (List Int) → List (List (List Int)))
    (magnitude phase : List Int) (res : SeparationResult)
    (h : run_notebook cfg C class_idx model magnitude phase = some res)
    (hphase : magnitude.length ≤ phase.length) :
    res.phase_arg = phase.take res.source_spectrogram.length ∧
    res.phase_arg ++ phase.drop res.source_spectrogram.length = phase ∧
    res.phase_arg.length = res.source_spectrogram.length := by
  obtain ⟨-, -, -, -, hpa, -⟩ :=
    run_notebook_some cfg C class_idx model magnitude phase res h
  refine ⟨hpa, ?_, ?_⟩
  · rw [hpa]
    exact List.take_append_drop _ _
  · rw [hpa, List.length_take]
    have hle : res.source_spectrogram.length ≤ phase.length :=
      le_trans (source_spectrogram_len_le cfg C class_idx model magnitude phase res h) hphase
    omega

/-- Witness for C4 at the example run. -/
theorem phase_truncated_to_spectrogram_length_witness :
    example_result.phase_arg =
      ([5, 7] : List Int).take example_result.source_spectrogram.length ∧
    example_result.phase_arg ++
      ([5, 7] : List Int).drop example_result.source_spectrogram.length = [5, 7] ∧
    example_result.phase_arg.length = example_result.source_spectrogram.length :=
  phase_truncated_to_spectrogram_length example_cfg 1 0 example_model [2, 3] [5, 7]
    example_result example_run (by decide)

/-- C3: concatenating the per-chunk masked magnitude chunks along the time
axis (cell-21) yields a per-class spectrogram of time length exactly
`C * ⌊T / C⌋ ≤ T`, for every run whose model emits masks of the chunk time
extent `C` for the selected class. -/
theorem separated_spectrogram_length (cfg : Config) (C class_idx T : Nat)
    (model : List (List Int) → List (List (List Int)))
    (magnitude phase : List Int) (res : SeparationResult)
    (hT : magnitude.length = T)
    (h : run_notebook cfg C class_idx model magnitude phase = some res)
    (hmask : ∀ i, i < res.batch.length →
      ((res.masks.getD i []).getD class_idx []).length = C) :
    res.source_spectrogram.length = C * (T / C) ∧ C * (T / C) ≤ T := by
  subst hT
  have hCpos := (run_div_pos cfg C class_idx model magnitude phase res h).2
  have hbatch := run_batch_length cfg C class_idx model magnitude phase res h
  constructor
  · rw [source_spectrogram_as_sum cfg C class_idx model magnitude phase res h]
    have hrepl : (List.range res.batch.length).map (fun i =>
        ((separate_spectrogram_in_lin_scale (res.masks.getD i [])
          ((magnitude.drop (i * C)).take C)).getD class_idx []).length) =
        List.replicate res.batch.length C := by
      rw [List.eq_replicate_iff]
      constructor
      · rw [List.length_map, List.length_range]
      · intro b hb
        obtain ⟨i, hi, rfl⟩ := List.mem_map.mp hb
        rw [List.mem_range] at hi
        have hslice : ((magnitude.drop (i * C)).take C).length = C :=
          slice_length magnitude C i (by rw [hbatch] at hi; exact hi)
        exact class_chunk_len_eq _ _ class_idx C hCpos hslice (hmask i hi)
    rw [hrepl, List.sum_replicate, smul_eq_mul, hbatch, Nat.mul_comm]
  · rw [Nat.mul_comm]
    exact Nat.div_mul_le_self _ _

/-- Witness for C3 at the example run: `T = 2`, `C = 1`, output length
`1 * (2 / 1) = 2`. -/
theorem separated_spectrogram_length_witness :
    example_result.source_spectrogram.length = 1 * (2 / 1) ∧ 1 * (2 / 1) ≤ 2 :=
  separated_spectrogram_length example_cfg 1 0 2 example_model [2, 3] [5, 7]
    example_result (by decide) example_run (by decide)
